import Mathlib

/-!
Verification of the qmims core: the embedded-instruction scanner and content
extractor over markdown text, and the external worker orchestrator
(`QChatProcess` in `src/utils/q-cli.ts`).

The scanner/extractor module (`src/utils/markdown.ts`) is not present in the
source tree (only its tests and callers are), so those definitions are
modelled from the specification document; the orchestrator definitions are a
direct shallow embedding of `src/utils/q-cli.ts`.

Documents are embedded as strings; a line is represented as its list of
characters, mirroring the JavaScript `content.split('\n')` which the line
oriented scanner performs first.  All definitions are executable so that
concrete documents evaluate inside the kernel.
-/

namespace Qmims

/-! ## Lines, blanks and markers -/

/-- Splitting accumulator: cut a character stream at every newline character,
mirroring JavaScript `String.prototype.split('\n')` (an empty document yields
one empty line, a trailing newline yields a trailing empty line). -/
def splitLinesAux : List Char → List Char → List (List Char)
  | [], acc => [acc.reverse]
  | c :: cs, acc =>
      if c = '\n' then acc.reverse :: splitLinesAux cs []
      else splitLinesAux cs (c :: acc)

/-- The lines of a document, each line as its character list. -/
def splitLines (s : String) : List (List Char) := splitLinesAux s.data []

/-- Remove leading and trailing whitespace from a line. -/
def trimChars (cs : List Char) : List Char :=
  ((cs.dropWhile Char.isWhitespace).reverse.dropWhile Char.isWhitespace).reverse

/-- A blank line: empty or whitespace-only. -/
def isBlankLine (l : List Char) : Bool := l.all Char.isWhitespace

/-- The `<!-- qmims-target-start -->` marker line, as characters. -/
def targetStartMarker : List Char := "<!-- qmims-target-start -->".data

/-- The `<!-- qmims-target-end -->` marker line, as characters. -/
def targetEndMarker : List Char := "<!-- qmims-target-end -->".data

/-- Modelled from the spec: a target-start marker stands alone on its own
line (surrounding whitespace allowed). -/
def isTargetStart (l : List Char) : Bool := decide (trimChars l = targetStartMarker)

/-- Modelled from the spec: a target-end marker stands alone on its own
line (surrounding whitespace allowed). -/
def isTargetEnd (l : List Char) : Bool := decide (trimChars l = targetEndMarker)

/-- Opening delimiter of an instruction comment, `<!-- qmims:`. -/
def qmimsHead : List Char := "<!-- qmims:".data

/-- Closing delimiter of an instruction comment, `-->`. -/
def commentTail : List Char := "-->".data

/-- Modelled from the spec (the scanner source `src/utils/markdown.ts` is
missing from the tree): recognize a single-line marker of the exact shape
`<!-- qmims: <text> -->` and return `<text>` trimmed; any other line
(including non-qmims comments) yields `none`. -/
def instructionText (l : List Char) : Option (List Char) :=
  let t := trimChars l
  if qmimsHead.isPrefixOf t && commentTail.isSuffixOf t then
    let mid := t.drop qmimsHead.length
    some (trimChars (mid.take (mid.length - commentTail.length)))
  else none

/-- First index `j ≥ i` (counting from `i` over the given suffix) whose line
satisfies `p`. -/
def findFromAux (p : List Char → Bool) : List (List Char) → Nat → Option Nat
  | [], _ => none
  | l :: ls, i => if p l then some i else findFromAux p ls (i + 1)

/-- First 0-based index `j ≥ s` of a line of `ls` satisfying `p`. -/
def findFrom (p : List Char → Bool) (ls : List (List Char)) (s : Nat) : Option Nat :=
  findFromAux p (ls.drop s) s

/-! ## The instruction record -/

/-- An authoring directive found in the markdown text.  `lineNumber` is the
1-based line of the instruction comment; `targetStart` is the 1-based line of
the start marker itself and `targetEnd` the 1-based line of the last content
line enclosed (the end-marker line is `targetEnd + 1`). -/
structure Instruction where
  instruction : String
  lineNumber : Nat
  targetStart : Option Nat := none
  targetEnd : Option Nat := none
deriving DecidableEq, Repr

/-- Modelled from the spec: look ahead from the instruction line (0-based
index `i`), skipping only blank lines, for a target-start marker; if the next
non-blank line is that marker and a matching end marker follows with at least
one enclosed line, return the 1-based `(targetStart, targetEnd)` pair as
described in the data model; otherwise the instruction has no target fields
(an unmatched start marker or an empty target block records none, keeping the
stated invariant `targetStart < targetEnd`). -/
def lookupTarget (ls : List (List Char)) (i : Nat) : Option (Nat × Nat) :=
  match findFrom (fun l => !(isBlankLine l)) ls (i + 1) with
  | none => none
  | some j =>
      if isTargetStart (ls.getD j []) then
        match findFrom isTargetEnd ls (j + 1) with
        | some k => if j + 1 < k then some (j + 1, k) else none
        | none => none
      else none

/-- Build the instruction record for directive text `txt` found at 0-based
line index `i`. -/
def mkInstruction (ls : List (List Char)) (txt : List Char) (i : Nat) : Instruction :=
  match lookupTarget ls i with
  | none => { instruction := ⟨txt⟩, lineNumber := i + 1 }
  | some (s, e) =>
      { instruction := ⟨txt⟩, lineNumber := i + 1, targetStart := some s, targetEnd := some e }

/-- Scan the remaining lines (0-based index of the head is `i`), collecting
instruction records in document order. -/
def parseAux (ls : List (List Char)) : List (List Char) → Nat → List Instruction
  | [], _ => []
  | l :: rest, i =>
      match instructionText l with
      | none => parseAux ls rest (i + 1)
      | some txt => mkInstruction ls txt i :: parseAux ls rest (i + 1)

/-- Scan a document given as its list of lines. -/
def parseInstructionsLines (ls : List (List Char)) : List Instruction :=
  parseAux ls ls 0

/-- Modelled from the spec (`src/utils/markdown.ts` is missing from the
tree): `parseInstructions(content)` returns the ordered sequence of
instruction records; empty or missing input yields the empty sequence. -/
def parseInstructions (content : String) : List Instruction :=
  if content = "" then [] else parseInstructionsLines (splitLines content)

/-! ## The content extractor -/

/-- Join lines with a newline character. -/
def joinLines : List (List Char) → List Char
  | [] => []
  | [l] => l
  | l :: ls => l ++ '\n' :: joinLines ls

/-- Modelled from the spec: the bounds check of Mode A — a 1-based pair
`(s, e)` is usable on a document of `n` lines when `1 ≤ s`, `s < e` and
`e ≤ n`; otherwise extraction falls through to paragraph extraction. -/
def targetBoundsOK (s e n : Nat) : Bool :=
  decide (1 ≤ s) && decide (s < e) && decide (e ≤ n)

/-- Modelled from the spec, Mode C (paragraph extraction): starting
immediately after the instruction's comment line, skip any leading blank
lines, then collect the contiguous non-blank lines up to the next blank line
or the end of the document, joined with a newline; an empty collection means
nothing is extractable. -/
def paragraphAfter (ls : List (List Char)) (lineNumber : Nat) : Option String :=
  let para := (((ls.drop lineNumber).dropWhile isBlankLine).takeWhile
    (fun l => !(isBlankLine l)))
  if para.isEmpty then none else some ⟨joinLines para⟩

/-- Modelled from the spec, Mode B (direct marker scan): locate the first
target-start and the first target-end marker of the whole document; if either
is missing, or the end marker sits before the start marker, nothing is
extractable; otherwise return the lines strictly between them. -/
def extractDirect (ls : List (List Char)) : Option String :=
  match findFrom isTargetStart ls 0 with
  | none => none
  | some j =>
      match findFrom isTargetEnd ls 0 with
      | none => none
      | some k =>
          if k < j then none
          else some ⟨joinLines ((ls.drop (j + 1)).take (k - (j + 1)))⟩

/-- Modelled from the spec (`src/utils/markdown.ts` is missing from the
tree): `extractTargetContent(content, instruction?)`, never throwing, with
`none` signalling absence of extractable content.  Mode A uses in-bounds
recorded target bounds verbatim; out-of-range bounds or absent bounds fall
through to paragraph extraction (Mode C); without an instruction the document
is scanned directly for markers (Mode B); empty content yields `none`
unconditionally. -/
def extractTargetContent (content : String) (ins : Option Instruction := none) :
    Option String :=
  if content = "" then none
  else
    let ls := splitLines content
    match ins with
    | none => extractDirect ls
    | some i =>
        match i.targetStart, i.targetEnd with
        | some s, some e =>
            if targetBoundsOK s e ls.length then
              some ⟨joinLines ((ls.drop s).take (e - s))⟩
            else paragraphAfter ls i.lineNumber
        | _, _ => paragraphAfter ls i.lineNumber

/-- The nine-line example document of the specification. -/
def sampleDoc : String :=
  "# Test Document\n\n<!-- qmims: Summarize this content -->\n<!-- qmims-target-start -->\nThis is the content to summarize.\nIt has multiple lines.\n<!-- qmims-target-end -->\n\nSome other content."

/-- The instruction record the scanner is expected to produce on
`sampleDoc`. -/
def sampleInstruction : Instruction :=
  { instruction := "Summarize this content", lineNumber := 3,
    targetStart := some 4, targetEnd := some 6 }

/-! ## The worker orchestrator (`QChatProcess` in `src/utils/q-cli.ts`)

The class state is the triple of mutable fields the methods touch:
the stored `prompt` (initially the empty string), the `ora` spinner handle
(`none` when the field is `null`; `some true` while spinning, `some false`
once stopped), and the `childProcess` handle (`none` when `null`; no code
path of the one-shot implementation ever assigns it).  The blocking
`await execa(...)` call is embedded by passing the spawn outcome in as data:
`execa` with its default `reject: true` resolves exactly when the worker
exits with code `0`, and otherwise rejects with an error object carrying
optional `message` and `exitCode` fields. -/

/-- Construction-time options of `QChatProcess` (`QChatOptions`). -/
structure QChatOptions where
  cwd : String
  verbose : Bool
  autoApprove : Bool
deriving DecidableEq, Repr

/-- A signal delivered through the `QChatEvents` callbacks: `onOutput`,
`onError` (carrying the error message) or `onExit` (carrying the exit
code). -/
inductive QEvent where
  | output (text : String)
  | error (message : String)
  | exit (code : Int)
deriving DecidableEq, Repr

/-- The mutable fields of a `QChatProcess` instance. -/
structure QChatState where
  prompt : String := ""
  spinner : Option Bool := none
  childProcess : Option Unit := none
deriving DecidableEq, Repr

/-- The state of a freshly constructed `QChatProcess`. -/
def initialState : QChatState := {}

/-- `start()`: start the spinner and emit the readiness output signal. -/
def start (st : QChatState) : QChatState × List QEvent :=
  ({ st with spinner := some true }, [QEvent.output "Amazon Q is ready"])

/-- `sendMessage(message)`: store the message as the pending prompt,
overwriting any previous one. -/
def sendMessage (st : QChatState) (message : String) : QChatState :=
  { st with prompt := message }

/-- Outcome of the `await execa('q', args, ...)` call inside
`executeCommand`: with execa's default `reject: true` it resolves exactly
when the worker exits with code `0`; any non-zero exit or spawn-level error
rejects with an error object whose `message` and `exitCode` fields may each
be absent. -/
inductive SpawnResult where
  | success
  | failure (message : Option String) (exitCode : Option Int)
deriving DecidableEq, Repr

/-- JavaScript `m || d` on an optional string (`undefined` and `''` are
falsy). -/
def jsOrString (m : Option String) (d : String) : String :=
  match m with
  | none => d
  | some s => if s = "" then d else s

/-- JavaScript `err.exitCode || 1` (`undefined` and `0` are falsy). -/
def jsOrExitCode (c : Option Int) : Int :=
  match c with
  | none => 1
  | some v => if v = 0 then 1 else v

deriving instance DecidableEq for Except

/-- The spawn request handed to `execa`: command, argument vector and the
options object. -/
structure SpawnCall where
  command : String
  args : List String
  cwd : String
  stdio : String
  shell : Bool
deriving DecidableEq, Repr

/-- Observable outcome of one `executeCommand` (hence one `stop()`) call:
the instance state afterwards, the spawn request if a worker was spawned,
the emitted event signals in order, and whether the returned promise
resolved (`Except.ok`) or rejected with the given error message. -/
structure ExecOutcome where
  newState : QChatState
  spawned : Option SpawnCall
  events : List QEvent
  result : Except String Unit
deriving DecidableEq, Repr

/-- The message of the error thrown when no prompt was ever stored. -/
def noPromptMessage : String := "No prompt provided for Amazon Q"

/-- The fixed argument vector: non-interactive flag, unconditional
unattended-trust flag, then the stored prompt as the final argument. -/
def spawnArgs (prompt : String) : List String :=
  ["chat", "--no-interactive", "--trust-all-tools"] ++
    (if prompt = "" then [] else [prompt])

/-- The instance state while the spawned worker runs: `executeCommand`
started a fresh spinner and stopped it (without clearing the field) just
before the blocking `execa` call; `prompt` and `childProcess` are
untouched — in particular the spawned worker is never stored in
`childProcess`. -/
def preSpawnState (st : QChatState) : QChatState := { st with spinner := some false }

/-- The message of the error `executeCommand` throws on worker failure,
embedding the exit code. -/
def exitMessage (code : Int) : String :=
  "Amazon Q process exited with code " ++ toString code

/-- `executeCommand()`: reject immediately when no prompt is stored;
otherwise spawn `q chat --no-interactive --trust-all-tools <prompt>` in
`opts.cwd` with inherited stdio and no shell, then on success emit one
`onExit 0` and resolve, and on failure emit one `onError` with the error
message and one `onExit` with the (defaulted) exit code, and reject with an
error embedding that exit code. -/
def executeCommand (opts : QChatOptions) (st : QChatState) (sr : SpawnResult) :
    ExecOutcome :=
  if st.prompt = "" then
    { newState := st, spawned := none, events := [],
      result := Except.error noPromptMessage }
  else
    let call : SpawnCall :=
      { command := "q", args := spawnArgs st.prompt, cwd := opts.cwd,
        stdio := "inherit", shell := false }
    match sr with
    | SpawnResult.success =>
        { newState := preSpawnState st, spawned := some call,
          events := [QEvent.exit 0], result := Except.ok () }
    | SpawnResult.failure m c =>
        let errorMessage := jsOrString m "Unknown error executing Amazon Q command"
        let exitCode := jsOrExitCode c
        { newState := preSpawnState st, spawned := some call,
          events := [QEvent.error errorMessage, QEvent.exit exitCode],
          result := Except.error (exitMessage exitCode) }

/-- `stop()`: stop and clear any previous spinner, then run
`executeCommand`. -/
def stop (opts : QChatOptions) (st : QChatState) (sr : SpawnResult) : ExecOutcome :=
  executeCommand opts { st with spinner := none } sr

/-- Observable outcome of a `terminate()` call: the state afterwards,
whether `childProcess.kill()` was invoked, and whether a spinner was
stopped. -/
structure TerminateOutcome where
  newState : QChatState
  killedProcess : Bool
  stoppedSpinner : Bool
deriving DecidableEq, Repr

/-- `terminate()`: kill the tracked child process if the handle is set
(the handle itself is not cleared), and stop and clear the spinner if one
exists; the method never throws. -/
def terminate (st : QChatState) : TerminateOutcome :=
  { newState := { st with spinner := none },
    killedProcess := st.childProcess.isSome,
    stoppedSpinner := st.spinner.isSome }

/-! ## Whole-session runs, for the observational claims -/

/-- One public call on a `QChatProcess` (the spawn outcome of a `stop` call
is supplied as data). -/
inductive SessionCall where
  | startCall
  | sendCall (message : String)
  | stopCall (sr : SpawnResult)
deriving DecidableEq, Repr

/-- Trace of a sequence of calls: final state, all emitted event signals in
order, and all spawn requests in order. -/
structure RunResult where
  state : QChatState
  events : List QEvent
  spawns : List SpawnCall
deriving DecidableEq, Repr

/-- Run a sequence of `start`/`sendMessage`/`stop` calls from a state,
collecting every emitted signal and every spawn request. -/
def runCalls (opts : QChatOptions) : QChatState → List SessionCall → RunResult
  | st, [] => { state := st, events := [], spawns := [] }
  | st, SessionCall.startCall :: rest =>
      let p := start st
      let r := runCalls opts p.1 rest
      { r with events := p.2 ++ r.events }
  | st, SessionCall.sendCall m :: rest =>
      runCalls opts (sendMessage st m) rest
  | st, SessionCall.stopCall sr :: rest =>
      let o := stop opts st sr
      let r := runCalls opts o.newState rest
      { state := r.state, events := o.events ++ r.events,
        spawns := (match o.spawned with
          | none => r.spawns
          | some c => c :: r.spawns) }

/-! ## Helper lemmas on the line scan -/

theorem findFromAux_some {p : List Char → Bool} {ls : List (List Char)} {i j : Nat}
    (h : findFromAux p ls i = some j) :
    i ≤ j ∧ j - i < ls.length ∧ p (ls.getD (j - i) []) = true := by
  induction ls generalizing i with
  | nil => simp [findFromAux] at h
  | cons l rest ih =>
    by_cases hp : p l
    · simp only [findFromAux, hp, if_pos, Option.some.injEq] at h
      subst h
      simp [hp]
    · simp only [findFromAux, hp, if_neg, Bool.false_eq_true, if_false] at h
      obtain ⟨h1, h2, h3⟩ := ih h
      refine ⟨by omega, ?_, ?_⟩
      · simp only [List.length_cons]
        omega
      · have hji : j - i = (j - (i + 1)) + 1 := by omega
        rw [hji]
        simpa using h3

theorem findFromAux_none {p : List Char → Bool} {ls : List (List Char)} {i : Nat}
    (h : findFromAux p ls i = none) :
    ∀ m, m < ls.length → p (ls.getD m []) = false := by
  induction ls generalizing i with
  | nil =>
    intro m hm
    simp at hm
  | cons l rest ih =>
    intro m hm
    by_cases hp : p l
    · simp [findFromAux, hp] at h
    · simp only [findFromAux, hp, Bool.false_eq_true, if_false] at h
      cases m with
      | zero => simpa using hp
      | succ m =>
        refine ih h m ?_
        simp only [List.length_cons] at hm
        omega

theorem getD_drop (ls : List (List Char)) (s m : Nat) :
    (ls.drop s).getD m [] = ls.getD (s + m) [] := by
  induction s generalizing ls with
  | zero => simp
  | succ s ih =>
    cases ls with
    | nil => simp
    | cons l rest =>
      rw [List.drop_succ_cons, ih rest, Nat.succ_add, List.getD_cons_succ]

theorem findFrom_some {p : List Char → Bool} {ls : List (List Char)} {s j : Nat}
    (h : findFrom p ls s = some j) :
    s ≤ j ∧ j < ls.length ∧ p (ls.getD j []) = true := by
  obtain ⟨h1, h2, h3⟩ := findFromAux_some h
  rw [List.length_drop] at h2
  rw [getD_drop] at h3
  have hx : s + (j - s) = j := by omega
  rw [hx] at h3
  exact ⟨h1, by omega, h3⟩

theorem findFrom_none {p : List Char → Bool} {ls : List (List Char)} {s : Nat}
    (h : findFrom p ls s = none) :
    ∀ m, s ≤ m → m < ls.length → p (ls.getD m []) = false := by
  intro m hsm hm
  have hx := findFromAux_none h (m - s) (by rw [List.length_drop]; omega)
  rw [getD_drop] at hx
  have hy : s + (m - s) = m := by omega
  rwa [hy] at hx

theorem not_start_and_end (l : List Char) :
    isTargetStart l = true → isTargetEnd l = true → False := by
  simp only [isTargetStart, isTargetEnd, decide_eq_true_eq]
  intro h1 h2
  rw [h1] at h2
  exact absurd h2 (by decide)

theorem lookupTarget_some {ls : List (List Char)} {n s e : Nat}
    (h : lookupTarget ls n = some (s, e)) :
    1 ≤ s ∧ s < e ∧ e < ls.length := by
  unfold lookupTarget at h
  split at h
  · simp at h
  · rename_i j h1
    split at h
    · split at h
      · rename_i h2 k h3
        split at h
        · rename_i h4
          simp only [Option.some.injEq, Prod.mk.injEq] at h
          obtain ⟨hs, he⟩ := h
          obtain ⟨hk1, hk2, hk3⟩ := findFrom_some h3
          omega
        · simp at h
      · simp at h
    · simp at h

theorem mem_parseAux {ls : List (List Char)} {ins : Instruction} :
    ∀ {rest : List (List Char)} {i : Nat}, ins ∈ parseAux ls rest i →
      ∃ txt n, ins = mkInstruction ls txt n := by
  intro rest
  induction rest with
  | nil =>
    intro i h
    simp [parseAux] at h
  | cons l r ih =>
    intro i h
    simp only [parseAux] at h
    cases hx : instructionText l with
    | none =>
      rw [hx] at h
      exact ih h
    | some txt =>
      rw [hx] at h
      rcases List.mem_cons.mp h with h1 | h2
      · exact ⟨txt, i, h1⟩
      · exact ih h2

theorem mkInstruction_target_cases (ls : List (List Char)) (txt : List Char) (n : Nat) :
    ((mkInstruction ls txt n).targetStart = none ∧
      (mkInstruction ls txt n).targetEnd = none) ∨
    (∃ s e, (mkInstruction ls txt n).targetStart = some s ∧
      (mkInstruction ls txt n).targetEnd = some e ∧
      1 ≤ s ∧ s < e ∧ e ≤ ls.length) := by
  unfold mkInstruction
  cases hl : lookupTarget ls n with
  | none =>
    left
    simp
  | some p =>
    right
    obtain ⟨s, e⟩ := p
    obtain ⟨hb1, hb2, hb3⟩ := lookupTarget_some hl
    exact ⟨s, e, by simp, by simp, hb1, hb2, by omega⟩

theorem paragraphAfter_nil_line (n : Nat) : paragraphAfter [[]] n = none := by
  cases n with
  | zero => decide
  | succ n => simp [paragraphAfter]

theorem splitLines_empty : splitLines "" = [[]] := by decide

/-! ## The claims about the scanner and extractor -/

/-- C5: on the nine-line example document the scanner returns exactly one
record, `{instruction := "Summarize this content", lineNumber := 3,
targetStart := 4, targetEnd := 6}`, and extraction with that record returns
exactly the two enclosed content lines joined by a newline. -/
theorem sample_doc_scan_and_extract :
    parseInstructions sampleDoc =
      [{ instruction := "Summarize this content", lineNumber := 3,
         targetStart := some 4, targetEnd := some 6 }] ∧
    extractTargetContent sampleDoc
        (some { instruction := "Summarize this content", lineNumber := 3,
                targetStart := some 4, targetEnd := some 6 }) =
      some "This is the content to summarize.\nIt has multiple lines." := by
  constructor <;> decide

/-- C6: direct-mode extraction (no instruction argument) returns `none`
whenever no target-start marker exists, or a start marker exists with no
later target-end marker, or the first target-end marker sits before the
first target-start marker; on success it returns the lines strictly between
the start marker and the end marker, joined with a newline.  (The function
is total, so it never throws.) -/
theorem extract_direct_null_and_success (content : String) :
    (findFrom isTargetStart (splitLines content) 0 = none →
      extractTargetContent content none = none) ∧
    (∀ j, findFrom isTargetStart (splitLines content) 0 = some j →
      findFrom isTargetEnd (splitLines content) (j + 1) = none →
      extractTargetContent content none = none) ∧
    (∀ j k, findFrom isTargetStart (splitLines content) 0 = some j →
      findFrom isTargetEnd (splitLines content) 0 = some k → k < j →
      extractTargetContent content none = none) ∧
    (∀ j k, findFrom isTargetStart (splitLines content) 0 = some j →
      findFrom isTargetEnd (splitLines content) 0 = some k → j < k →
      extractTargetContent content none =
        some ⟨joinLines (((splitLines content).drop (j + 1)).take (k - (j + 1)))⟩) := by
  by_cases hc : content = ""
  · subst hc
    have hnone : extractTargetContent "" none = none := rfl
    have hstart : findFrom isTargetStart (splitLines "") 0 = none := by decide
    refine ⟨fun _ => hnone, fun j hj _ => hnone, fun j k _ _ _ => hnone,
      fun j k hj _ _ => ?_⟩
    rw [hstart] at hj
    exact absurd hj (by simp)
  · have hext : extractTargetContent content none = extractDirect (splitLines content) := by
      simp [extractTargetContent, hc]
    refine ⟨?_, ?_, ?_, ?_⟩
    · intro h
      rw [hext]
      simp [extractDirect, h]
    · intro j hj hnone
      rw [hext]
      cases hk : findFrom isTargetEnd (splitLines content) 0 with
      | none => simp [extractDirect, hj, hk]
      | some k =>
        obtain ⟨hk0, hklen, hkp⟩ := findFrom_some hk
        obtain ⟨hj0, hjlen, hjp⟩ := findFrom_some hj
        have hkj : k ≤ j := by
          by_contra hgt
          have hfalse := findFrom_none hnone k (by omega) hklen
          rw [hfalse] at hkp
          exact absurd hkp (by simp)
        have hne2 : k ≠ j := fun heq => not_start_and_end _ hjp (heq ▸ hkp)
        simp only [extractDirect, hj, hk]
        rw [if_pos (show k < j by omega)]
    · intro j k hj hk hlt
      rw [hext]
      simp only [extractDirect, hj, hk]
      rw [if_pos hlt]
    · intro j k hj hk hlt
      rw [hext]
      simp only [extractDirect, hj, hk]
      rw [if_neg (show ¬ k < j by omega)]

/-- Closed instance of the C6 theorem: on the reversed-marker document of
the test suite (a target-end marker, then content, then a target-start
marker with no end marker after it), direct-mode extraction returns
`none`. -/
theorem extract_direct_null_and_success_witness :
    extractTargetContent
      "# Test Markdown\n\n<!-- qmims-target-end -->\nContent in wrong order\n<!-- qmims-target-start -->\n"
      none = none :=
  (extract_direct_null_and_success
    "# Test Markdown\n\n<!-- qmims-target-end -->\nContent in wrong order\n<!-- qmims-target-start -->\n").2.1
    4 (by decide) (by decide)

/-- C7: an instruction whose recorded target bounds are present but out of
range for the current content falls through to paragraph extraction: skip
blank lines immediately after the instruction line, then return the
contiguous non-blank lines up to the next blank line or the end of the
document, joined with a newline. -/
theorem extract_out_of_range_falls_back (content : String) (ins : Instruction)
    (s e : Nat) (hs : ins.targetStart = some s) (he : ins.targetEnd = some e)
    (hb : targetBoundsOK s e (splitLines content).length = false) :
    extractTargetContent content (some ins) =
      (let para := ((((splitLines content).drop ins.lineNumber).dropWhile
          isBlankLine).takeWhile (fun l => !(isBlankLine l)));
       if para.isEmpty then none else some ⟨joinLines para⟩) := by
  have hrule : (let para := ((((splitLines content).drop ins.lineNumber).dropWhile
      isBlankLine).takeWhile (fun l => !(isBlankLine l)));
      if para.isEmpty then none else some (⟨joinLines para⟩ : String)) =
      paragraphAfter (splitLines content) ins.lineNumber := rfl
  rw [hrule]
  by_cases hc : content = ""
  · rw [hc]
    have h1 : extractTargetContent "" (some ins) = none := rfl
    rw [h1, splitLines_empty, paragraphAfter_nil_line]
  · simp only [extractTargetContent, if_neg hc, hs, he, hb]
    simp

/-- Closed instance of the C7 theorem, at the test suite's input: the
out-of-bounds pair `(100, 200)` on a five-line document falls back to
paragraph extraction, which returns the next non-blank block. -/
theorem extract_out_of_range_falls_back_witness :
    extractTargetContent "# Test Markdown\n\n<!-- qmims: Instruction -->\n\nSome content.\n"
      (some { instruction := "Instruction", lineNumber := 3,
              targetStart := some 100, targetEnd := some 200 }) =
      (let para := ((((splitLines
          "# Test Markdown\n\n<!-- qmims: Instruction -->\n\nSome content.\n").drop 3).dropWhile
          isBlankLine).takeWhile (fun l => !(isBlankLine l)));
       if para.isEmpty then none else some ⟨joinLines para⟩) ∧
    extractTargetContent "# Test Markdown\n\n<!-- qmims: Instruction -->\n\nSome content.\n"
      (some { instruction := "Instruction", lineNumber := 3,
              targetStart := some 100, targetEnd := some 200 }) =
      some "Some content." :=
  ⟨extract_out_of_range_falls_back _ _ 100 200 rfl rfl (by decide), by decide⟩

/-- C8: every instruction record the scanner returns has `targetStart` and
`targetEnd` either both present or both absent; when present,
`targetStart < targetEnd` and both 1-based indices lie within the line
bounds of the content at scan time. -/
theorem parse_target_invariant (content : String) (ins : Instruction)
    (h : ins ∈ parseInstructions content) :
    (ins.targetStart = none ∧ ins.targetEnd = none) ∨
    (∃ s e, ins.targetStart = some s ∧ ins.targetEnd = some e ∧
      s < e ∧ 1 ≤ s ∧ s ≤ (splitLines content).length ∧
      1 ≤ e ∧ e ≤ (splitLines content).length) := by
  unfold parseInstructions at h
  split at h
  · simp at h
  · unfold parseInstructionsLines at h
    obtain ⟨txt, n, rfl⟩ := mem_parseAux h
    rcases mkInstruction_target_cases (splitLines content) txt n with
      h1 | ⟨s, e, h1, h2, h3, h4, h5⟩
    · exact Or.inl h1
    · exact Or.inr ⟨s, e, h1, h2, h4, h3, by omega, by omega, h5⟩

/-- Closed instance of the C8 theorem, at the example document: its single
returned record satisfies the target-bounds invariant. -/
theorem parse_target_invariant_witness :
    sampleInstruction ∈ parseInstructions sampleDoc ∧
    ((sampleInstruction.targetStart = none ∧ sampleInstruction.targetEnd = none) ∨
      (∃ s e, sampleInstruction.targetStart = some s ∧
        sampleInstruction.targetEnd = some e ∧
        s < e ∧ 1 ≤ s ∧ s ≤ (splitLines sampleDoc).length ∧
        1 ≤ e ∧ e ≤ (splitLines sampleDoc).length)) :=
  ⟨by decide, parse_target_invariant sampleDoc sampleInstruction (by decide)⟩

/-! ## Helper lemmas on the orchestrator -/

/-- Recognizer for `onError` signals. -/
def isErrorEvent : QEvent → Bool
  | QEvent.error _ => true
  | _ => false

/-- Recognizer for `onExit` signals. -/
def isExitEvent : QEvent → Bool
  | QEvent.exit _ => true
  | _ => false

theorem foldl_sendMessage (st : QChatState) (msgs : List String) (h : msgs ≠ []) :
    msgs.foldl sendMessage st = { st with prompt := msgs.getLast h } := by
  induction msgs generalizing st with
  | nil => exact absurd rfl h
  | cons m rest ih =>
    cases rest with
    | nil => rfl
    | cons m2 r2 =>
      have hne : (m2 :: r2) ≠ [] := by simp
      rw [List.foldl_cons, ih (sendMessage st m) hne, List.getLast_cons hne]
      rfl

theorem executeCommand_cwd_congr (o1 o2 : QChatOptions) (h : o1.cwd = o2.cwd)
    (st : QChatState) (sr : SpawnResult) :
    executeCommand o1 st sr = executeCommand o2 st sr := by
  unfold executeCommand
  rw [h]

theorem stop_cwd_congr (o1 o2 : QChatOptions) (h : o1.cwd = o2.cwd)
    (st : QChatState) (sr : SpawnResult) :
    stop o1 st sr = stop o2 st sr :=
  executeCommand_cwd_congr o1 o2 h _ sr

theorem runCalls_cwd_congr (o1 o2 : QChatOptions) (h : o1.cwd = o2.cwd) :
    ∀ (cs : List SessionCall) (st : QChatState), runCalls o1 st cs = runCalls o2 st cs := by
  intro cs
  induction cs with
  | nil => intro st; rfl
  | cons c rest ih =>
    intro st
    cases c with
    | startCall => simp only [runCalls, ih]
    | sendCall m => simp only [runCalls, ih]
    | stopCall sr =>
      simp only [runCalls]
      rw [stop_cwd_congr o1 o2 h, ih]

theorem trust_mem_spawnArgs (p : String) : "--trust-all-tools" ∈ spawnArgs p := by
  unfold spawnArgs
  exact List.mem_append_left _ (by decide)

theorem spawned_args_trust (opts : QChatOptions) (st : QChatState) (sr : SpawnResult)
    (c : SpawnCall) (h : (executeCommand opts st sr).spawned = some c) :
    "--trust-all-tools" ∈ c.args := by
  unfold executeCommand at h
  by_cases hp : st.prompt = ""
  · simp [hp] at h
  · rw [if_neg hp] at h
    cases sr with
    | success =>
      simp only [Option.some.injEq] at h
      rw [← h]
      exact trust_mem_spawnArgs st.prompt
    | failure m c2 =>
      simp only [Option.some.injEq] at h
      rw [← h]
      exact trust_mem_spawnArgs st.prompt

theorem runCalls_spawns_trust (opts : QChatOptions) :
    ∀ (cs : List SessionCall) (st : QChatState) (c : SpawnCall),
      c ∈ (runCalls opts st cs).spawns → "--trust-all-tools" ∈ c.args := by
  intro cs
  induction cs with
  | nil =>
    intro st c h
    simp [runCalls] at h
  | cons call rest ih =>
    intro st c h
    cases call with
    | startCall => exact ih _ c (by simpa [runCalls] using h)
    | sendCall m => exact ih _ c (by simpa [runCalls] using h)
    | stopCall sr =>
      simp only [runCalls] at h
      cases hsp : (stop opts st sr).spawned with
      | none =>
        rw [hsp] at h
        exact ih _ c h
      | some c2 =>
        simp only [hsp] at h
        rcases List.mem_cons.mp h with rfl | h2
        · exact spawned_args_trust opts _ sr c hsp
        · exact ih _ c h2

theorem runCalls_childProcess (opts : QChatOptions) :
    ∀ (cs : List SessionCall) (st : QChatState),
      (runCalls opts st cs).state.childProcess = st.childProcess := by
  intro cs
  induction cs with
  | nil => intro st; rfl
  | cons call rest ih =>
    intro st
    cases call with
    | startCall => exact ih _
    | sendCall m => exact ih _
    | stopCall sr =>
      show (runCalls opts (stop opts st sr).newState rest).state.childProcess = _
      rw [ih]
      by_cases hp : st.prompt = ""
      · simp [stop, executeCommand, hp]
      · cases sr with
        | success => simp [stop, executeCommand, hp, preSpawnState]
        | failure m c => simp [stop, executeCommand, hp, preSpawnState]

/-! ## The claims about the orchestrator -/

/-- C1: for a session with a non-empty stored prompt, `stop()` resolves
exactly when the worker exits with code 0 (one `onExit 0` signal, no error
signal); on any non-zero exit or spawn-level error it rejects with an error
embedding the exit code (defaulting to 1 when unavailable) and emits
exactly one `onError` signal and exactly one `onExit` signal carrying that
code; a worker exit code of 2 rejects referencing exit code 2 with exactly
one exit signal of code 2. -/
theorem stop_exit_semantics (opts : QChatOptions) (st : QChatState)
    (h : st.prompt ≠ "") :
    ((stop opts st SpawnResult.success).result = Except.ok () ∧
      (stop opts st SpawnResult.success).events = [QEvent.exit 0] ∧
      (stop opts st SpawnResult.success).events.countP isExitEvent = 1 ∧
      (stop opts st SpawnResult.success).events.countP isErrorEvent = 0) ∧
    (∀ m c,
      (stop opts st (SpawnResult.failure m c)).result =
        Except.error (exitMessage (jsOrExitCode c)) ∧
      (stop opts st (SpawnResult.failure m c)).events =
        [QEvent.error (jsOrString m "Unknown error executing Amazon Q command"),
         QEvent.exit (jsOrExitCode c)] ∧
      (stop opts st (SpawnResult.failure m c)).events.countP isErrorEvent = 1 ∧
      (stop opts st (SpawnResult.failure m c)).events.countP isExitEvent = 1) ∧
    (∀ sr, (stop opts st sr).result = Except.ok () ↔ sr = SpawnResult.success) ∧
    (∀ m, (stop opts st (SpawnResult.failure m (some 2))).result =
        Except.error "Amazon Q process exited with code 2" ∧
      (stop opts st (SpawnResult.failure m (some 2))).events.count (QEvent.exit 2) = 1) := by
  have hp : ({ st with spinner := none } : QChatState).prompt ≠ "" := h
  refine ⟨?_, ?_, ?_, ?_⟩
  · simp [stop, executeCommand, hp, isExitEvent, isErrorEvent]
  · intro m c
    simp [stop, executeCommand, hp, isExitEvent, isErrorEvent]
  · intro sr
    cases sr with
    | success => simp [stop, executeCommand, hp]
    | failure m c => simp [stop, executeCommand, hp]
  · intro m
    constructor
    · have hmsg : exitMessage (jsOrExitCode (some 2)) =
          "Amazon Q process exited with code 2" := by decide
      rw [← hmsg]
      simp [stop, executeCommand, hp]
    · simp [stop, executeCommand, hp, jsOrExitCode]

/-- Closed instance of the C1 theorem: a worker exit code of 2 makes the
concrete session's `stop()` reject with the message embedding exit code
2. -/
theorem stop_exit_semantics_witness :
    (stop { cwd := "/repo", verbose := false, autoApprove := false }
        { prompt := "Generate a README", spinner := none, childProcess := none }
        (SpawnResult.failure none (some 2))).result =
      Except.error "Amazon Q process exited with code 2" :=
  ((stop_exit_semantics { cwd := "/repo", verbose := false, autoApprove := false }
      { prompt := "Generate a README", spinner := none, childProcess := none }
      (by decide)).2.2.2 none).1

/-- C2: on a session whose stored prompt is still the initial empty string,
`stop()` rejects immediately with the no-prompt error, spawns no worker and
emits no signal, leaving the stored prompt and the process handle
untouched (the spec's session state is unchanged; only the transient
progress indicator, which is not part of it, is cleared by `stop()`). -/
theorem stop_no_prompt_rejects (opts : QChatOptions) (st : QChatState)
    (sr : SpawnResult) (h : st.prompt = "") :
    (stop opts st sr).result = Except.error noPromptMessage ∧
    (stop opts st sr).spawned = none ∧
    (stop opts st sr).events = [] ∧
    (stop opts st sr).newState.prompt = st.prompt ∧
    (stop opts st sr).newState.childProcess = st.childProcess := by
  simp [stop, executeCommand, h]

/-- Closed instance of the C2 theorem, at a freshly constructed session. -/
theorem stop_no_prompt_rejects_witness :
    (stop { cwd := ".", verbose := false, autoApprove := false } initialState
        SpawnResult.success).result = Except.error noPromptMessage :=
  (stop_no_prompt_rejects { cwd := ".", verbose := false, autoApprove := false }
    initialState SpawnResult.success rfl).1

/-- Counterexample to C3 as stated: in the concrete run that stores a
prompt and is executing `stop()`'s spawned worker (the session state at the
blocking call is `preSpawnState` of the state `stop()` passed on),
a worker was spawned, yet `terminate()` kills no process — `executeCommand`
never assigns the tracked `childProcess` handle. -/
theorem terminate_during_stop_kill_counterexample :
    (stop { cwd := "/repo", verbose := false, autoApprove := false }
        (sendMessage (start initialState).1 "Generate a README")
        SpawnResult.success).spawned.isSome = true ∧
    (terminate (preSpawnState
        { sendMessage (start initialState).1 "Generate a README" with
          spinner := none })).killedProcess = false := by
  constructor <;> decide

/-- C3 (amended): `terminate()` kills the tracked child-process handle when
one is set and stops any active progress indicator; on a freshly
constructed, never-started session it is a no-op that does not throw.  But
no code path of the one-shot implementation ever assigns the tracked
handle — every reachable session state carries `childProcess = none` — so
`terminate()` called while a worker spawned by `stop()` is executing does
not kill that worker. -/
theorem terminate_best_effort (opts : QChatOptions) (st : QChatState) :
    (terminate st).killedProcess = st.childProcess.isSome ∧
    (terminate st).stoppedSpinner = st.spinner.isSome ∧
    (terminate st).newState = { st with spinner := none } ∧
    terminate initialState =
      { newState := initialState, killedProcess := false, stoppedSpinner := false } ∧
    (∀ cs : List SessionCall,
      (terminate (runCalls opts initialState cs).state).killedProcess = false) := by
  refine ⟨rfl, rfl, rfl, rfl, fun cs => ?_⟩
  show ((runCalls opts initialState cs).state.childProcess).isSome = false
  rw [runCalls_childProcess]
  rfl

/-- C4: `sendMessage` calls overwrite the stored prompt (last write wins)
and change nothing else of the session state; `stop()` then spawns the
worker as `q chat --no-interactive --trust-all-tools <last text>`, in the
session's `cwd`, with inherited standard streams and no shell. -/
theorem sendMessage_last_write_wins (opts : QChatOptions) (st : QChatState)
    (msgs : List String) (sr : SpawnResult) (hne : msgs ≠ [])
    (hlast : msgs.getLast hne ≠ "") :
    (msgs.foldl sendMessage st).prompt = msgs.getLast hne ∧
    (msgs.foldl sendMessage st).spinner = st.spinner ∧
    (msgs.foldl sendMessage st).childProcess = st.childProcess ∧
    (stop opts (msgs.foldl sendMessage st) sr).spawned =
      some { command := "q",
             args := ["chat", "--no-interactive", "--trust-all-tools", msgs.getLast hne],
             cwd := opts.cwd, stdio := "inherit", shell := false } := by
  rw [foldl_sendMessage st msgs hne]
  refine ⟨rfl, rfl, rfl, ?_⟩
  cases sr with
  | success => simp [stop, executeCommand, hlast, spawnArgs]
  | failure m c => simp [stop, executeCommand, hlast, spawnArgs]

/-- Closed instance of the C4 theorem: after two `sendMessage` calls the
spawn request carries the second text as the final argument. -/
theorem sendMessage_last_write_wins_witness :
    (["draft", "final prompt"].foldl sendMessage initialState).prompt = "final prompt" ∧
    (stop { cwd := "/repo", verbose := false, autoApprove := false }
        (["draft", "final prompt"].foldl sendMessage initialState)
        SpawnResult.success).spawned =
      some { command := "q",
             args := ["chat", "--no-interactive", "--trust-all-tools", "final prompt"],
             cwd := "/repo", stdio := "inherit", shell := false } := by
  have h := sendMessage_last_write_wins
    { cwd := "/repo", verbose := false, autoApprove := false } initialState
    ["draft", "final prompt"] SpawnResult.success (by decide) (by decide)
  exact ⟨h.1, h.2.2.2⟩

/-- C9: two sessions whose options differ only in `autoApprove` produce
identical traces on every call sequence — same final state, same emitted
signals, identical spawn requests — and every spawn request carries the
unattended-trust flag unconditionally, so `autoApprove` has no observable
effect on the orchestrator. -/
theorem autoApprove_no_observable_effect (o1 o2 : QChatOptions)
    (hcwd : o1.cwd = o2.cwd) (_hverb : o1.verbose = o2.verbose)
    (st : QChatState) (cs : List SessionCall) :
    runCalls o1 st cs = runCalls o2 st cs ∧
    ∀ c ∈ (runCalls o1 st cs).spawns, "--trust-all-tools" ∈ c.args :=
  ⟨runCalls_cwd_congr o1 o2 hcwd cs st,
   fun c hc => runCalls_spawns_trust o1 cs st c hc⟩

/-- Closed instance of the C9 theorem: flipping `autoApprove` leaves the
trace of a start/send/stop run unchanged. -/
theorem autoApprove_no_observable_effect_witness :
    runCalls { cwd := "/repo", verbose := false, autoApprove := false } initialState
        [SessionCall.startCall, SessionCall.sendCall "p",
         SessionCall.stopCall SpawnResult.success] =
      runCalls { cwd := "/repo", verbose := false, autoApprove := true } initialState
        [SessionCall.startCall, SessionCall.sendCall "p",
         SessionCall.stopCall SpawnResult.success] :=
  (autoApprove_no_observable_effect
    { cwd := "/repo", verbose := false, autoApprove := false }
    { cwd := "/repo", verbose := false, autoApprove := true }
    rfl rfl initialState
    [SessionCall.startCall, SessionCall.sendCall "p",
     SessionCall.stopCall SpawnResult.success]).1

/-- C10: storing the empty string as the prompt is indistinguishable from
never storing one: `stop()` rejects with the no-prompt error, spawns no
worker and emits no signal, exactly as on a freshly constructed session,
even though `sendMessage` was invoked. -/
theorem sendMessage_empty_like_no_prompt (opts : QChatOptions) (st : QChatState)
    (sr : SpawnResult) :
    (sendMessage st "").prompt = "" ∧
    (stop opts (sendMessage st "") sr).result = Except.error noPromptMessage ∧
    (stop opts (sendMessage st "") sr).spawned = none ∧
    (stop opts (sendMessage st "") sr).events = [] ∧
    (stop opts (sendMessage st "") sr).result = (stop opts initialState sr).result ∧
    (stop opts (sendMessage st "") sr).spawned = (stop opts initialState sr).spawned ∧
    (stop opts (sendMessage st "") sr).events = (stop opts initialState sr).events := by
  refine ⟨rfl, ?_, ?_, ?_, ?_, ?_, ?_⟩ <;>
    simp [stop, executeCommand, sendMessage, initialState]

end Qmims
